import Mathlib

set_option maxHeartbeats 1000000
set_option maxRecDepth 4000
set_option linter.unnecessarySeqFocus false
set_option linter.unusedVariables false

/-!
Shallow embedding of the json-formatter-pro core:
the JSONPath query engine (tokenize / applyToken / evaluateFilter /
queryJSONPath), the structural diff engine (diffJSON), the similarity
scorer (calculateSimilarity), and the path-to-line resolver
(stringifyWithPathMap / getParentPath / resolvePathLine).

JS numbers are modelled as exact rationals (the code only compares and
does one division; float64 rounding is abstracted).  JS `undefined` is a
first-class constructor because out-of-range element access and missing
property access produce it inside the query engine.
-/

/-- The JSON value tree, as the JS runtime sees it: `undefined` models the JS
`undefined` value that array/property misses produce. Objects are ordered
association lists (JS insertion order). -/
inductive Value where
  | null : Value
  | undefined : Value
  | bool (b : Bool) : Value
  | num (q : ℚ) : Value
  | str (s : String) : Value
  | arr (xs : List Value) : Value
  | obj (kvs : List (String × Value)) : Value

/-- One element of a JS query-result path array: the code pushes the
string literal for the root marker and object keys, and numbers for
array indices (slice indices can be negative, hence `Int`). -/
inductive PathSeg where
  | str (s : String) : PathSeg
  | num (n : Int) : PathSeg
deriving DecidableEq, Repr

abbrev JsPath := List PathSeg

/-- Tokens produced by `tokenize` (src/unnamed/part_000, lines 61-151).
Slice bounds: outer `none` models JS `null` (empty bound), inner `none`
models `NaN` from `parseInt` on a non-numeric bound. -/
inductive Token where
  | key (value : String) : Token
  | index (value : Nat) : Token
  | wildcard : Token
  | slice (start stop : Option (Option Int)) : Token
  | recursive : Token
  | filter (expression : String) : Token
deriving DecidableEq, Repr

/-- JS number for comparison purposes: a finite rational or one of the
specials `NaN`, `Infinity`, `-Infinity` that `Number`/`parseFloat` can
produce. Parsed JSON `Value`s only ever carry finite numbers. -/
inductive JNum where
  | fin (q : ℚ) : JNum
  | nan : JNum
  | inf : JNum
  | negInf : JNum
deriving DecidableEq, Repr

/-- A JS value as seen by the filter evaluator: a JSON `Value` or the
result of literal parsing (which can be a special number). -/
inductive JSVal where
  | undefined : JSVal
  | jnull : JSVal
  | jbool (b : Bool) : JSVal
  | jnum (n : JNum) : JSVal
  | jstr (s : String) : JSVal
  | jarr (xs : List Value) : JSVal
  | jobj (kvs : List (String × Value)) : JSVal

def toJSVal : Value → JSVal
  | .null => .jnull
  | .undefined => .undefined
  | .bool b => .jbool b
  | .num q => .jnum (.fin q)
  | .str s => .jstr s
  | .arr xs => .jarr xs
  | .obj kvs => .jobj kvs

/-! ### Character classes and JS number parsing -/

/-- JS regex `\s` (whitespace), restricted to the ASCII range; the
Unicode space characters are not modelled. -/
def isWS (c : Char) : Bool :=
  c = ' ' ∨ c = '\t' ∨ c = '\n' ∨ c = '\r' ∨ c = Char.ofNat 11 ∨ c = Char.ofNat 12

/-- JS regex `\w`: `[A-Za-z0-9_]`. -/
def isWordChar (c : Char) : Bool :=
  c.isAlphanum ∨ c = '_'

/-- JS regex `.`: any character except a line terminator. -/
def isDotChar (c : Char) : Bool :=
  ¬ (c = '\n' ∨ c = '\r')

def digitsToNat (ds : List Char) : Nat :=
  ds.foldl (fun n c => n * 10 + (c.toNat - 48)) 0

/-- Parse an optional decimal significand-and-exponent at the head of the
character list, returning its exact rational value and the unconsumed
rest. Mirrors the common prefix of JS `Number`/`parseFloat` grammar
(sign handled by the callers); an exponent with no digits is left
unconsumed, as `parseFloat` does. -/
def parseDecimal (l : List Char) : Option (ℚ × List Char) :=
  let ip := l.takeWhile Char.isDigit
  let l1 := l.drop ip.length
  let (fp, l2) :=
    match l1 with
    | '.' :: t => (t.takeWhile Char.isDigit, t.drop (t.takeWhile Char.isDigit).length)
    | _ => ([], l1)
  if ip = [] ∧ fp = [] then none
  else
    let mant : ℚ := (digitsToNat (ip ++ fp) : ℚ) / (10 : ℚ) ^ fp.length
    match l2 with
    | e :: t =>
      if e = 'e' ∨ e = 'E' then
        let (sgn, t2) :=
          match t with
          | '+' :: r => ((1 : Int), r)
          | '-' :: r => ((-1 : Int), r)
          | _ => ((1 : Int), t)
        let ed := t2.takeWhile Char.isDigit
        if ed = [] then some (mant, l2)
        else some (mant * (10 : ℚ) ^ (sgn * (digitsToNat ed : Int)), t2.drop ed.length)
      else some (mant, l2)
    | [] => some (mant, [])

/-- JS `Number(string)` coercion (used by `isNaN`): whole-string parse
after trimming; empty string is 0. Hex/octal/binary literals are not
modelled (they do not occur in the claims). -/
def jsNumber (s : String) : JNum :=
  let t := (s.data.dropWhile isWS).reverse.dropWhile isWS |>.reverse
  if t = [] then .fin 0
  else
    let (sgn, t2) :=
      match t with
      | '+' :: r => ((1 : ℚ), r)
      | '-' :: r => ((-1 : ℚ), r)
      | _ => ((1 : ℚ), t)
    if t2 = ['I','n','f','i','n','i','t','y'] then
      (if sgn = 1 then .inf else .negInf)
    else
      match parseDecimal t2 with
      | some (q, []) => .fin (sgn * q)
      | _ => .nan

/-- JS `parseFloat(string)`: longest valid numeric prefix after leading
whitespace; `NaN` when none. -/
def jsParseFloat (s : String) : JNum :=
  let t := s.data.dropWhile isWS
  let (sgn, t2) :=
    match t with
    | '+' :: r => ((1 : ℚ), r)
    | '-' :: r => ((-1 : ℚ), r)
    | _ => ((1 : ℚ), t)
  if t2.take 8 = ['I','n','f','i','n','i','t','y'] then
    (if sgn = 1 then .inf else .negInf)
  else
    match parseDecimal t2 with
    | some (q, _) => .fin (sgn * q)
    | none => .nan

/-- JS `parseInt(string)` (radix 10): leading whitespace, optional sign,
leading digit run; `none` models `NaN`. The automatic hex detection of
`parseInt` is not modelled. -/
def jsParseInt (s : String) : Option Int :=
  let t := s.data.dropWhile isWS
  let (sgn, t2) :=
    match t with
    | '+' :: r => ((1 : Int), r)
    | '-' :: r => ((-1 : Int), r)
    | _ => ((1 : Int), t)
  let ds := t2.takeWhile Char.isDigit
  if ds = [] then none else some (sgn * (digitsToNat ds : Int))

/-- Rendering of a JS number as text. Integers render exactly as JS
does; the shortest-roundtrip float formatting for non-integers is
abstracted to `num/den` (it only ever affects message/line text, never
control flow). -/
def jsNumToStr (q : ℚ) : String :=
  if q.den = 1 then toString q.num else toString q.num ++ "/" ++ toString q.den

/-! ### Object key access (JS own-property semantics) -/

/-- `obj[key]` / `key in obj`: first-match lookup in insertion order. -/
def jsGet (k : String) : List (String × Value) → Option Value
  | [] => none
  | (k2, v) :: rest => if k2 = k then some v else jsGet k rest

def hasKey (k : String) (kvs : List (String × Value)) : Bool :=
  (jsGet k kvs).isSome

def objKeys (kvs : List (String × Value)) : List String :=
  kvs.map Prod.fst

/-- Iteration order of `new Set(list)`: first occurrence of each element,
in insertion order. -/
def dedupFirstAux (seen : List String) : List String → List String
  | [] => []
  | k :: rest =>
    if k ∈ seen then dedupFirstAux seen rest
    else k :: dedupFirstAux (k :: seen) rest

def dedupFirst (l : List String) : List String := dedupFirstAux [] l

/-! ### Tokenizer (src/unnamed/part_000, lines 61-151) -/

/-- `bracket.split(':')`. -/
def splitColon : List Char → List (List Char)
  | [] => [[]]
  | c :: rest =>
    if c = ':' then [] :: splitColon rest
    else
      match splitColon rest with
      | h :: t => (c :: h) :: t
      | [] => [[c]]

/-- `s ? parseInt(s) : null` applied to one piece of the split (outer
`none` models JS `null`/`undefined`, inner `none` models `NaN`). -/
def sliceBound (part : Option (List Char)) : Option (Option Int) :=
  match part with
  | none => none
  | some cs => if cs = [] then none else some (jsParseInt (String.mk cs))

/-- Classification of one `[...]` bracket content, in the source's test
order: `*`, quoted key, all-digit index, slice (contains `:`), filter
(leading `?`); anything else is dropped. -/
def bracketTokens (bracket : List Char) : List Token :=
  if bracket = ['*'] then [.wildcard]
  else if bracket.head? = some '\'' ∨ bracket.head? = some '"' then
    [.key (String.mk bracket.tail.dropLast)]
  else if bracket ≠ [] ∧ bracket.all Char.isDigit then
    [.index (digitsToNat bracket)]
  else if ':' ∈ bracket then
    let parts := splitColon bracket
    [.slice (sliceBound (parts.get? 0)) (sliceBound (parts.get? 1))]
  else if bracket.head? = some '?' then
    [.filter (String.mk bracket.tail)]
  else []

/-- The scan loop of `tokenize`, one iteration per constructor match.
Fuel is structural bookkeeping only: every iteration consumes at least
one character, so the initial fuel `l.length` never runs out before the
input does. The double-dot branch is kept exactly where the source has
it (after the single-dot skip), which is what makes it dead code. -/
def tokenizeLoopF : Nat → List Char → List Token
  | 0, _ => []
  | _, [] => []
  | fuel + 1, c :: rest =>
    if c = '.' then tokenizeLoopF fuel rest
    else if c = '[' then
      let bracket := rest.takeWhile (fun x => ¬ (x = ']'))
      let rest2 := (rest.drop bracket.length).drop 1
      bracketTokens bracket ++ tokenizeLoopF fuel rest2
    else if c = '.' ∧ rest.head? = some '.' then
      Token.recursive :: tokenizeLoopF fuel (rest.drop 1)
    else if c = '*' then
      Token.wildcard :: tokenizeLoopF fuel rest
    else
      -- identifier run: the current character satisfies the loop
      -- predicate here (it is neither '.' nor '['), so the run is
      -- never empty and the `if (identifier)` guard of the source is
      -- always taken in this branch
      let ident := c :: rest.takeWhile (fun x => ¬ (x = '.') ∧ ¬ (x = '['))
      let rest2 := rest.dropWhile (fun x => ¬ (x = '.') ∧ ¬ (x = '['))
      Token.key (String.mk ident) :: tokenizeLoopF fuel rest2

/-- `tokenize(path)`: total, never fails; empty and `"$"` inputs give
the empty token list; a leading `$` is skipped. -/
def tokenize (path : String) : List Token :=
  if path = "" ∨ path = "$" then []
  else
    let l := if path.data.head? = some '$' then path.data.drop 1 else path.data
    tokenizeLoopF l.length l

/-! ### Diff engine (src/utils/formatter.js, lines 645-763) -/

inductive ChangeKind where
  | added : ChangeKind
  | removed : ChangeKind
  | changed : ChangeKind
deriving DecidableEq, Repr

/-- One entry of the `changes` array: `type`, `path`, `old`, `new`,
`message`; absent fields are `none`. -/
structure ChangeRec where
  ctype : ChangeKind
  path : String
  oldV : Option Value
  newV : Option Value
  message : String

/-- `typeof` of a modelled value (`typeof null` is `"object"`). -/
def jsTypeof : Value → String
  | .null => "object"
  | .undefined => "undefined"
  | .bool _ => "boolean"
  | .num _ => "number"
  | .str _ => "string"
  | .arr _ => "object"
  | .obj _ => "object"

def getTypeName : Value → String
  | .null => "null"
  | .arr _ => "array"
  | .undefined => "undefined"
  | .bool _ => "boolean"
  | .num _ => "number"
  | .str _ => "string"
  | .obj _ => "object"

def formatValue : Value → String
  | .null => "null"
  | .str s => "\"" ++ s ++ "\""
  | .arr xs => "[array(" ++ toString xs.length ++ ")]"
  | .obj kvs => "\x7bobject(" ++ toString kvs.length ++ ")\x7d"
  | .num q => jsNumToStr q
  | .bool b => if b then "true" else "false"
  | .undefined => "undefined"

def isArrayV : Value → Bool
  | .arr _ => true
  | _ => false

/-- Strict equality `===` restricted to the non-object case in which the
diff engine uses it (both operands have the same `typeof`, and it is not
`"object"`). Modelled numbers are finite rationals, so number equality
is plain equality. -/
def strictEqPrim (a b : Value) : Bool :=
  match a, b with
  | .num p, .num q => p = q
  | .str s, .str t => s = t
  | .bool x, .bool y => x = y
  | .undefined, .undefined => true
  | _, _ => false

def pathOrRoot (path : String) : String :=
  if path = "" then "root" else path

def mkChanged (path : String) (o1 o2 : Value) : ChangeRec :=
  ⟨.changed, path, some o1, some o2,
    pathOrRoot path ++ ": " ++ formatValue o1 ++ " → " ++ formatValue o2⟩

def mkTypeChanged (path : String) (o1 o2 : Value) : ChangeRec :=
  ⟨.changed, path, some o1, some o2,
    pathOrRoot path ++ ": type changed from " ++ getTypeName o1 ++ " to " ++ getTypeName o2⟩

def mkArrObjChanged (path : String) (o1 o2 : Value) : ChangeRec :=
  ⟨.changed, path, some o1, some o2,
    pathOrRoot path ++ ": changed from array to object or vice versa"⟩

def mkAdded (path : String) (v : Value) : ChangeRec :=
  ⟨.added, path, none, some v, path ++ ": +" ++ formatValue v⟩

def mkRemoved (path : String) (v : Value) : ChangeRec :=
  ⟨.removed, path, some v, none, path ++ ": -" ++ formatValue v⟩

mutual

/-- Executable structural size of a value, used only to hand the fueled
recursions enough fuel for the whole tree. -/
def vsize : Value → Nat
  | .arr xs => 1 + vsizeL xs
  | .obj kvs => 1 + vsizeO kvs
  | _ => 1

def vsizeL : List Value → Nat
  | [] => 0
  | v :: rest => vsize v + vsizeL rest

def vsizeO : List (String × Value) → Nat
  | [] => 0
  | (_, v) :: rest => vsize v + vsizeO rest

end

/-- The recursive `compare(o1, o2, path)` closure of `diffJSON`, with
the source's case order: both null, one null, differing `typeof`,
non-object strict comparison, array/object mismatch, index-aligned
array walk, key-union object walk. Fuel is structural bookkeeping; the
wrapper supplies enough for the whole tree. -/
def diffCompareF : Nat → Value → Value → String → List ChangeRec
  | 0, _, _, _ => []
  | fuel + 1, o1, o2, path =>
    match o1, o2 with
    | .null, .null => []
    | .null, b => [mkChanged path .null b]
    | a, .null => [mkChanged path a .null]
    | a, b =>
      if jsTypeof a ≠ jsTypeof b then [mkTypeChanged path a b]
      else if jsTypeof a ≠ "object" then
        (if strictEqPrim a b then [] else [mkChanged path a b])
      else if isArrayV a ≠ isArrayV b then [mkArrObjChanged path a b]
      else
        match a, b with
        | .arr xs, .arr ys =>
          ((List.range (max xs.length ys.length)).map (fun i =>
            let newPath := path ++ "[" ++ toString i ++ "]"
            if xs.length ≤ i then [mkAdded newPath (ys.getD i .null)]
            else if ys.length ≤ i then [mkRemoved newPath (xs.getD i .null)]
            else diffCompareF fuel (xs.getD i .null) (ys.getD i .null) newPath)).flatten
        | .obj kvs1, .obj kvs2 =>
          ((dedupFirst (objKeys kvs1 ++ objKeys kvs2)).map (fun key =>
            let newPath := if path = "" then key else path ++ "." ++ key
            match jsGet key kvs1 with
            | none => [mkAdded newPath ((jsGet key kvs2).getD .undefined)]
            | some v1 =>
              match jsGet key kvs2 with
              | none => [mkRemoved newPath v1]
              | some v2 => diffCompareF fuel v1 v2 newPath)).flatten
        | _, _ => []

/-- `diffJSON(json1, json2)`. The recursion always descends one level of
`json1`, so `vsize json1` fuel is always sufficient. -/
def diffJSON (json1 json2 : Value) : List ChangeRec :=
  diffCompareF (vsize json1) json1 json2 ""

/-! ### Similarity scorer (src/utils/formatter.js, lines 874-896) -/

/-- The `countNodes` closure of `calculateSimilarity`: primitives and
null are 1; arrays reduce over elements with initial 1; objects reduce
over values with initial key count. -/
def countNodesF : Nat → Value → Nat
  | 0, _ => 0
  | fuel + 1, v =>
    match v with
    | .arr xs => xs.foldl (fun sum item => sum + countNodesF fuel item) 1
    | .obj kvs => kvs.foldl (fun sum kv => sum + countNodesF fuel kv.2) kvs.length
    | _ => 1

def countNodes (v : Value) : Nat := countNodesF (vsize v) v

/-- `Math.round` for finite values: round half toward positive
infinity. -/
def jsRound (q : ℚ) : Int := ⌊q + 1 / 2⌋

def calculateSimilarity (json1 json2 : Value) : Int :=
  let changes := diffJSON json1 json2
  let totalNodes := countNodes json1 + countNodes json2
  let changeCount := changes.length
  if totalNodes = 0 then 100
  else jsRound (max 0 (min 100 (((totalNodes : ℚ) - changeCount * 2) / totalNodes * 100)))

/-- `nodeCount` as the spec words it (§4.2): primitive or null → 1;
array → 1 + sum over elements; object → key count + sum over values. -/
def nodeCountSpecF : Nat → Value → Nat
  | 0, _ => 0
  | fuel + 1, v =>
    match v with
    | .arr xs => 1 + (xs.map (nodeCountSpecF fuel)).sum
    | .obj kvs => kvs.length + (kvs.map (fun kv => nodeCountSpecF fuel kv.2)).sum
    | _ => 1

def nodeCountSpec (v : Value) : Nat := nodeCountSpecF (vsize v) v

/-- The similarity formula as the claim words it: half-up rounding of
`((total − changeCount × 2) / total) × 100` clamped to `[0,100]`, with
`total = 0 → 100`. -/
def similaritySpec (v1 v2 : Value) : Int :=
  let changeCount := (diffJSON v1 v2).length
  let total := nodeCountSpec v1 + nodeCountSpec v2
  if total = 0 then 100
  else jsRound (max 0 (min 100 (((total : ℚ) - changeCount * 2) / total * 100)))

/-! ### The filter regex `@\.(\w+)\s*(==|!=|>|<|>=|<=)\s*(.+)`
(src/unnamed/part_000, line 259), modelled with JS backtracking
semantics: unanchored leftmost search, alternatives tried in source
order, greedy `\s*` backtracking into the mandatory `.+`. -/

/-- Greedy `.+` capture: the maximal run of non-line-terminator
characters. -/
def dotRun (t : List Char) : List Char := t.takeWhile isDotChar

/-- `\s*(.+)` at `t`, trying a whitespace run of length `k` first and
backtracking down: succeeds as soon as the character after the consumed
whitespace exists and is not a line terminator. -/
def backtrackDot : Nat → List Char → Option (List Char)
  | 0, t =>
    match t.head? with
    | some c => if isDotChar c then some (dotRun t) else none
    | none => none
  | k + 1, t =>
    let rem := t.drop (k + 1)
    match rem.head? with
    | some c => if isDotChar c then some (dotRun rem) else backtrackDot k t
    | none => backtrackDot k t

def matchTail (t : List Char) : Option (List Char) :=
  backtrackDot (t.takeWhile isWS).length t

/-- One operator alternative: commit only if the rest of the pattern
(`\s*(.+)`) also matches after it. -/
def tryOp (op : List Char) (u : List Char) : Option (String × String) :=
  if u.take op.length = op then
    (matchTail (u.drop op.length)).map (fun v => (String.mk op, String.mk v))
  else none

/-- The alternation `==|!=|>|<|>=|<=` in source order (which is what
makes `>=`/`<=` effectively unreachable: `>`/`<` match first and `.+`
swallows the `=`). -/
def tryOps (u : List Char) : Option (String × String) :=
  tryOp ['=', '='] u <|> tryOp ['!', '='] u <|> tryOp ['>'] u <|>
    tryOp ['<'] u <|> tryOp ['>', '='] u <|> tryOp ['<', '='] u

/-- Attempt the whole pattern at a fixed start position. The greedy
`\w+` and the inter-token `\s*` never need backtracking because no
operator starts with a word or whitespace character. -/
def matchAt : List Char → Option (String × String × String)
  | '@' :: '.' :: rest =>
    let property := rest.takeWhile isWordChar
    if property = [] then none
    else
      let u := (rest.drop property.length).dropWhile isWS
      (tryOps u).map (fun ov => (String.mk property, ov.1, ov.2))
  | _ => none

/-- `expression.match(regex)`: unanchored search, leftmost start
position wins; yields the three capture groups (property, operator,
value text). -/
def regexSearch : List Char → Option (String × String × String)
  | [] => none
  | c :: rest => matchAt (c :: rest) <|> regexSearch rest

/-! ### JS loose comparison semantics (filter operators) -/

def jnumEq : JNum → JNum → Bool
  | .fin a, .fin b => a = b
  | .inf, .inf => true
  | .negInf, .negInf => true
  | _, _ => false

/-- Numeric `<`; `none` models the "undefined" outcome on a NaN
operand. -/
def jnumLtB : JNum → JNum → Option Bool
  | .nan, _ => none
  | _, .nan => none
  | .fin a, .fin b => some (decide (a < b))
  | .fin _, .inf => some true
  | .fin _, .negInf => some false
  | .inf, _ => some false
  | .negInf, .negInf => some false
  | .negInf, _ => some true

/-- Lexicographic string order by character code, as JS compares
strings. -/
def strLtB : List Char → List Char → Bool
  | [], [] => false
  | [], _ :: _ => true
  | _ :: _, [] => false
  | a :: as, b :: bs => if a < b then true else if b < a then false else strLtB as bs

/-- `String(v)` / `Array.prototype.toString` (join with "," where null
and undefined elements become empty), used by ToPrimitive on arrays
and objects. -/
def jsToStrF : Nat → Value → String
  | 0, _ => ""
  | fuel + 1, v =>
    match v with
    | .null => "null"
    | .undefined => "undefined"
    | .bool b => if b then "true" else "false"
    | .num q => jsNumToStr q
    | .str s => s
    | .obj _ => "[object Object]"
    | .arr xs =>
      String.intercalate "," (xs.map (fun x =>
        match x with
        | .null => ""
        | .undefined => ""
        | y => jsToStrF fuel y))

def jsToStr (v : Value) : String := jsToStrF (vsize v) v

/-- ToPrimitive with number hint: arrays and objects go through their
toString; primitives are themselves. -/
def toPrimJS : JSVal → JSVal
  | .jarr xs => .jstr (jsToStr (.arr xs))
  | .jobj kvs => .jstr (jsToStr (.obj kvs))
  | v => v

/-- ToNumber. -/
def toNumberJS : JSVal → JNum
  | .undefined => .nan
  | .jnull => .fin 0
  | .jbool b => .fin (if b then 1 else 0)
  | .jnum n => n
  | .jstr s => jsNumber s
  | .jarr xs => jsNumber (jsToStr (.arr xs))
  | .jobj kvs => jsNumber (jsToStr (.obj kvs))

def isObjJS : JSVal → Bool
  | .jarr _ => true
  | .jobj _ => true
  | _ => false

/-- Normalisation used by loose equality: objects to their primitive
string, then booleans to numbers. -/
def loosePrim (v : JSVal) : JSVal :=
  match toPrimJS v with
  | .jbool b => .jnum (.fin (if b then 1 else 0))
  | p => p

/-- JS `==` (abstract equality). Two objects compare by reference; the
filter evaluator never reaches that case (the literal side is never an
object), so it is modelled as false. -/
def looseEq (x y : JSVal) : Bool :=
  if isObjJS x ∧ isObjJS y then false
  else
    match loosePrim x, loosePrim y with
    | .undefined, .undefined => true
    | .undefined, .jnull => true
    | .jnull, .undefined => true
    | .jnull, .jnull => true
    | .jnum a, .jnum b => jnumEq a b
    | .jstr a, .jstr b => a = b
    | .jnum a, .jstr b => jnumEq a (jsNumber b)
    | .jstr a, .jnum b => jnumEq (jsNumber a) b
    | _, _ => false

/-- JS abstract relational `x < y`: ToPrimitive both; string-string is
lexicographic, anything else numeric; `none` is the undefined outcome
(a NaN operand). -/
def jsLt (x y : JSVal) : Option Bool :=
  match toPrimJS x, toPrimJS y with
  | .jstr a, .jstr b => some (strLtB a.data b.data)
  | px, py => jnumLtB (toNumberJS px) (toNumberJS py)

/-- The operator switch of `evaluateFilter` (lines 281-289): `>` is
`y < x`, `>=` is not-`(x < y)`, `<=` is not-`(y < x)`, each false on an
undefined comparison. -/
def applyCmp (op : String) (itemValue compareValue : JSVal) : Bool :=
  if op = "==" then looseEq itemValue compareValue
  else if op = "!=" then ! looseEq itemValue compareValue
  else if op = ">" then (jsLt compareValue itemValue).getD false
  else if op = "<" then (jsLt itemValue compareValue).getD false
  else if op = ">=" then
    match jsLt itemValue compareValue with
    | none => false
    | some r => ! r
  else if op = "<=" then
    match jsLt compareValue itemValue with
    | none => false
    | some r => ! r
  else false

/-! ### Property access and the filter evaluator -/

/-- A canonical array-index property name: digits with no leading zero
(except "0"). -/
def isCanonicalIndex (l : List Char) : Bool :=
  l ≠ [] ∧ l.all Char.isDigit ∧ (l = ['0'] ∨ l.head? ≠ some '0')

/-- `item[property]`: throws a TypeError on null/undefined (this is the
only runtime error the query engine can produce besides the undefined
path spread); objects use own-key lookup, arrays and strings expose
`length` and canonical indices, other primitives have no own
properties. -/
def getProp (item : Value) (property : String) : Except String JSVal :=
  match item with
  | .null => .error ("Cannot read properties of null (reading " ++ property ++ ")")
  | .undefined => .error ("Cannot read properties of undefined (reading " ++ property ++ ")")
  | .obj kvs =>
    .ok (match jsGet property kvs with
         | some v => toJSVal v
         | none => .undefined)
  | .arr xs =>
    .ok (if property = "length" then .jnum (.fin (xs.length : ℚ))
         else if isCanonicalIndex property.data then
           match xs[digitsToNat property.data]? with
           | some v => toJSVal v
           | none => .undefined
         else .undefined)
  | .str s =>
    .ok (if property = "length" then .jnum (.fin (s.length : ℚ))
         else if isCanonicalIndex property.data then
           match s.data[digitsToNat property.data]? with
           | some c => .jstr (String.mk [c])
           | none => .undefined
         else .undefined)
  | _ => .ok .undefined

/-- Literal parsing of the comparison value (lines 266-279): quoted →
string, true/false/null, `!isNaN` → `parseFloat`, otherwise the raw
text. -/
def parseCompareValue (valueStr : String) : JSVal :=
  if valueStr.data.head? = some '\'' ∨ valueStr.data.head? = some '"' then
    .jstr (String.mk valueStr.data.tail.dropLast)
  else if valueStr = "true" then .jbool true
  else if valueStr = "false" then .jbool false
  else if valueStr = "null" then .jnull
  else if ¬ (jsNumber valueStr = .nan) then .jnum (jsParseFloat valueStr)
  else .jstr valueStr

/-- `evaluateFilter(item, expression)` (lines 254-290). A non-matching
expression returns false; a matching one first reads
`item[property]`, which can throw. -/
def evaluateFilter (item : Value) (expression : String) : Except String Bool :=
  match regexSearch expression.data with
  | none => .ok false
  | some (property, op, valueStr) => do
    let itemValue ← getProp item property
    .ok (applyCmp op itemValue (parseCompareValue valueStr))

/-! ### Token application and the query pipeline
(src/unnamed/part_000, lines 12-54 and 160-246) -/

/-- `[...currentPath, seg]`: spreading an undefined `currentPath`
(which happens when the paths array has fallen behind the results
array) throws. -/
def pushPair (cp : Option JsPath) (seg : PathSeg) : Except String JsPath :=
  match cp with
  | some p => .ok (p ++ [seg])
  | none => .error "currentPath is not iterable"

/-- Push a run of (path segment, value) pairs, in order; the first
undefined-path spread aborts. -/
def emitAll (cp : Option JsPath) : List (PathSeg × Value) → Except String (List Value × List JsPath)
  | [] => .ok ([], [])
  | (seg, v) :: rest => do
    let p ← pushPair cp seg
    let (vs, ps) ← emitAll cp rest
    .ok (v :: vs, p :: ps)

/-- The filter loop: evaluate each element in index order, keeping
matches; an evaluator throw aborts the whole query. -/
def filterEmit (expression : String) (cp : Option JsPath) : List (Int × Value) → Except String (List Value × List JsPath)
  | [] => .ok ([], [])
  | (i, x) :: rest => do
    let b ← evaluateFilter x expression
    if b then do
      let p ← pushPair cp (.num i)
      let (vs, ps) ← filterEmit expression cp rest
      .ok (x :: vs, p :: ps)
    else filterEmit expression cp rest

/-- The `collect` closure of the recursive-descent case: pre-order,
arrays by index then objects by key. -/
def collectF : Nat → Value → JsPath → List Value × List JsPath
  | 0, _, _ => ([], [])
  | fuel + 1, v, path =>
    match v with
    | .arr xs =>
      (xs.enum.map (fun ix =>
        let p2 := path ++ [PathSeg.num (ix.1 : Int)]
        let rec2 := collectF fuel ix.2 p2
        (ix.2 :: rec2.1, p2 :: rec2.2))).foldl
        (fun acc pr => (acc.1 ++ pr.1, acc.2 ++ pr.2)) ([], [])
    | .obj kvs =>
      (kvs.map (fun kv =>
        let p2 := path ++ [PathSeg.str kv.1]
        let rec2 := collectF fuel kv.2 p2
        (kv.2 :: rec2.1, p2 :: rec2.2))).foldl
        (fun acc pr => (acc.1 ++ pr.1, acc.2 ++ pr.2)) ([], [])
    | _ => ([], [])

def hasChildren : Value → Bool
  | .arr xs => ¬ xs.isEmpty
  | .obj kvs => ¬ kvs.isEmpty
  | _ => false

/-- Integers `a, a+1, …, b-1` (empty when `b ≤ a`), the index range of
the slice loop. -/
def intRangeList (a b : Int) : List Int :=
  (List.range (b - a).toNat).map (fun j => a + (j : Int))

/-- `applyToken(token, current, currentPath)` (lines 160-246). -/
def applyToken (token : Token) (current : Value) (cp : Option JsPath) : Except String (List Value × List JsPath) :=
  match token with
  | .key k =>
    match current with
    | .obj kvs =>
      match jsGet k kvs with
      | some v => do
        let p ← pushPair cp (.str k)
        .ok ([v], [p])
      | none => .ok ([], [])
    | _ => .ok ([], [])
  | .index i =>
    match current with
    | .arr xs =>
      if i < xs.length then do
        let p ← pushPair cp (.num (i : Int))
        .ok ([xs.getD i .null], [p])
      else .ok ([], [])
    | _ => .ok ([], [])
  | .wildcard =>
    match current with
    | .arr xs => emitAll cp (xs.enum.map (fun ix => (PathSeg.num (ix.1 : Int), ix.2)))
    | .obj kvs => emitAll cp (kvs.map (fun kv => (PathSeg.str kv.1, kv.2)))
    | _ => .ok ([], [])
  | .slice s e =>
    match current with
    | .arr xs =>
      -- `token.start ?? 0` and `token.end ?? current.length`; an inner
      -- `none` is NaN, and a NaN bound yields no iterations
      match s.getD (some 0), e.getD (some (xs.length : Int)) with
      | some a, some b =>
        emitAll cp ((intRangeList a (min b (xs.length : Int))).map (fun i =>
          (PathSeg.num i, if 0 ≤ i then xs.getD i.toNat .undefined else .undefined)))
      | _, _ => .ok ([], [])
    | _ => .ok ([], [])
  | .recursive =>
    match cp with
    | some p => .ok (collectF (vsize current) current p)
    | none =>
      -- the first push would spread the undefined current path
      if hasChildren current then .error "currentPath is not iterable" else .ok ([], [])
  | .filter expression =>
    match current with
    | .arr xs => filterEmit expression cp (xs.enum.map (fun ix => ((ix.1 : Int), ix.2)))
    | _ => .ok ([], [])

/-- Query outcome object: `success`,`error`,`results`,`paths`,`count`.
The JS failure object carries no `paths` field; that absence is
modelled as `[]`. -/
structure QueryOutcome where
  success : Bool
  error : Option String
  results : List Value
  paths : List JsPath
  count : Nat

/-- The inner loop of `queryJSONPath`: apply the token to
`results[i]` with `paths[i]` (which is undefined once the paths array
has fallen behind), concatenating values and paths. -/
def applyAll (token : Token) : List Value → List JsPath → Except String (List Value × List JsPath)
  | [], _ => .ok ([], [])
  | v :: vs, ps => do
    let np ← applyToken token v ps.head?
    let rp ← applyAll token vs ps.tail
    .ok (np.1 ++ rp.1, np.2 ++ rp.2)

/-- Lines 31-37 of the source: `paths.push(...newPaths.slice(results.length))`
followed by shifting from the front while `paths.length > results.length`.
Because `newPaths` always has exactly `results.length` entries, the push
appends nothing and the paths array can only ever shrink — the recorded
per-match paths are never actually updated. -/
def jsUpdatePaths (paths newPaths : List JsPath) (n : Nat) : List JsPath :=
  let p1 := paths ++ newPaths.drop n
  p1.drop (p1.length - n)

def runTokens : List Token → List Value → List JsPath → Except String (List Value × List JsPath)
  | [], results, paths => .ok (results, paths)
  | token :: rest, results, paths => do
    let st ← applyAll token results paths
    runTokens rest st.1 (jsUpdatePaths paths st.2 st.1.length)

/-- `queryJSONPath(json, path)` (lines 12-54): seeds the working set
with the root and the path array with `['$']`, folds the tokens, and
catches any thrown error as a failure object. -/
def queryJSONPath (json : Value) (path : String) : QueryOutcome :=
  match runTokens (tokenize path) [json] [[PathSeg.str "$"]] with
  | .ok st => ⟨true, none, st.1, st.2.take st.1.length, st.1.length⟩
  | .error msg => ⟨false, some msg, [], [], 0⟩

/-! ### Pretty-printer with path map and the path-to-line resolver
(src/popup.js, lines 497-559 and 601-629) -/

/-- `JSON.stringify` string escaping, restricted to the escapes that
matter here (quote, backslash, common control characters); the `\uXXXX`
escapes for other control characters are not modelled — this affects
rendered text only, never line counting or the path map. -/
def jsonEscapeChar (c : Char) : List Char :=
  if c = '"' then ['\\', '"']
  else if c = '\\' then ['\\', '\\']
  else if c = '\n' then ['\\', 'n']
  else if c = '\t' then ['\\', 't']
  else if c = '\r' then ['\\', 'r']
  else [c]

def jsonQuote (s : String) : String :=
  "\"" ++ String.mk ((s.data.map jsonEscapeChar).flatten) ++ "\""

/-- `JSON.stringify(current)` in the primitive branch of the
stringifier; `stringify(undefined)` is undefined and the template
renders it as the text "undefined". Containers never reach this (the
caller handles them first). -/
def jsonPrimText : Value → String
  | .null => "null"
  | .undefined => "undefined"
  | .bool b => if b then "true" else "false"
  | .num q => jsNumToStr q
  | .str s => jsonQuote s
  | .arr _ => ""
  | .obj _ => ""

/-- JS `Map.set`: overwrite in place if the key exists, else append. -/
def setEntry (k : String) (v : Nat) : List (String × Nat) → List (String × Nat)
  | [] => [(k, v)]
  | (k2, v2) :: rest => if k2 = k then (k, v) :: rest else (k2, v2) :: setEntry k v rest

/-- JS `Map.get` (`none` for `Map.has` false). -/
def mapGet (k : String) : List (String × Nat) → Option Nat
  | [] => none
  | (k2, v) :: rest => if k2 = k then some v else mapGet k rest

/-- The recorder guard `if (path) pathToLine.set(path, lineNo)`: the
empty (root) path is never recorded. -/
def recordPath (path : String) (lineNo : Nat) (m : List (String × Nat)) : List (String × Nat) :=
  if path = "" then m else setEntry path lineNo m

def commaPart (addComma : Bool) : String := if addComma then "," else ""

def keyPart : Option String → String
  | some key => jsonQuote key ++ ": "
  | none => ""

/-- Accumulated stringifier state: emitted lines and the path→line
map. `addLine` is `lines.push` returning `lines.length`, modelled by
appending and using `lines.length + 1` as the new line number. -/
structure SState where
  lines : List String
  pathToLine : List (String × Nat)

/-- The `appendValue` closure of `stringifyWithPathMap` (lines
507-552): primitives print inline; non-empty containers record their
opening line, recurse into children with comma bookkeeping, and close;
empty containers print inline. -/
def appendValueF (indent : Nat) : Nat → Value → String → Nat → Bool → Option String → SState → SState
  | 0, _, _, _, _, _, st => st
  | fuel + 1, current, path, depth, addComma, key, st =>
    let pfx := String.mk (List.replicate (indent * depth) ' ')
    let keyPfx := keyPart key
    match current with
    | .arr xs =>
      if xs.isEmpty then
        let lineNo := st.lines.length + 1
        ⟨st.lines ++ [pfx ++ keyPfx ++ "[]" ++ commaPart addComma],
          recordPath path lineNo st.pathToLine⟩
      else
        let openNo := st.lines.length + 1
        let st1 : SState :=
          ⟨st.lines ++ [pfx ++ keyPfx ++ "["], recordPath path openNo st.pathToLine⟩
        let st2 := xs.enum.foldl (fun acc ix =>
          let itemPath :=
            if path = "" then "[" ++ toString ix.1 ++ "]"
            else path ++ "[" ++ toString ix.1 ++ "]"
          appendValueF indent fuel ix.2 itemPath (depth + 1) (ix.1 + 1 < xs.length) none acc) st1
        ⟨st2.lines ++ [pfx ++ "]" ++ commaPart addComma], st2.pathToLine⟩
    | .obj kvs =>
      if kvs.isEmpty then
        let lineNo := st.lines.length + 1
        ⟨st.lines ++ [pfx ++ keyPfx ++ "\x7b\x7d" ++ commaPart addComma],
          recordPath path lineNo st.pathToLine⟩
      else
        let openNo := st.lines.length + 1
        let st1 : SState :=
          ⟨st.lines ++ [pfx ++ keyPfx ++ "\x7b"], recordPath path openNo st.pathToLine⟩
        let st2 := kvs.enum.foldl (fun acc ikv =>
          let childPath :=
            if path = "" then ikv.2.1 else path ++ "." ++ ikv.2.1
          appendValueF indent fuel ikv.2.2 childPath (depth + 1) (ikv.1 + 1 < kvs.length)
            (some ikv.2.1) acc) st1
        ⟨st2.lines ++ [pfx ++ "\x7d" ++ commaPart addComma], st2.pathToLine⟩
    | _ =>
      let lineNo := st.lines.length + 1
      ⟨st.lines ++ [pfx ++ keyPfx ++ jsonPrimText current ++ commaPart addComma],
        recordPath path lineNo st.pathToLine⟩

structure StringifyResult where
  output : String
  pathToLine : List (String × Nat)

/-- `stringifyWithPathMap(value, indent)`; the popup always uses the
default `indent = 2`. -/
def stringifyWithPathMap (value : Value) (indent : Nat) : StringifyResult :=
  let st := appendValueF indent (vsize value) value "" 0 false none ⟨[], []⟩
  ⟨String.intercalate "\n" st.lines, st.pathToLine⟩

/-- The regex branch of `getParentPath`: strip a trailing `[digits]`
(`/\[\d+\]$/`), `none` when the path does not end that way. -/
def stripIndexSuffix (l : List Char) : Option (List Char) :=
  match l.reverse with
  | ']' :: r2 =>
    let ds := r2.takeWhile Char.isDigit
    if ds = [] then none
    else
      match r2.drop ds.length with
      | '[' :: r3 => some r3.reverse
      | _ => none
  | _ => none

/-- `getParentPath(path)` (lines 620-629): strip a trailing `[n]`, else
cut at the last `.`, else the root (empty string). -/
def getParentPath (path : String) : String :=
  if path = "" then ""
  else
    match stripIndexSuffix path.data with
    | some l => String.mk l
    | none =>
      let r := path.data.reverse.dropWhile (fun c => ¬ (c = '.'))
      String.mk ((r.drop 1).reverse)

/-- The while loop of `resolvePathLine`: strip, check the map (the
stripped path may be the root ""), repeat while non-empty. Each strip
shortens the path, so `path.length` fuel always suffices. -/
def resolveLoopF (m : List (String × Nat)) : Nat → String → Nat
  | 0, _ => 1
  | fuel + 1, cur =>
    if cur = "" then 1
    else
      let parent := getParentPath cur
      match mapGet parent m with
      | some lineNo => lineNo
      | none => resolveLoopF m fuel parent

/-- `resolvePathLine(path, pathToLine)` (lines 601-613): empty path is
line 1; a recorded path returns its line; otherwise walk up through
`getParentPath` until a recorded ancestor, falling back to line 1. -/
def resolvePathLine (path : String) (m : List (String × Nat)) : Nat :=
  if path = "" then 1
  else
    match mapGet path m with
    | some lineNo => lineNo
    | none => resolveLoopF m path.length path

/-! ### Helper lemmas -/

theorem length_dropWhile_le' (p : α → Bool) (l : List α) :
    (l.dropWhile p).length ≤ l.length := by
  induction l with
  | nil => simp [List.dropWhile]
  | cons a l ih =>
    cases h : p a <;> simp [List.dropWhile_cons, h] <;> omega

theorem vsizeL_le_of_mem {x : Value} {xs : List Value} (h : x ∈ xs) :
    vsize x ≤ vsizeL xs := by
  induction xs with
  | nil => cases h
  | cons a l ih =>
    rcases List.mem_cons.mp h with rfl | h2
    · simp [vsizeL]
    · have := ih h2
      simp [vsizeL]
      omega

theorem vsizeO_le_of_mem {k : String} {v : Value} {kvs : List (String × Value)}
    (h : (k, v) ∈ kvs) : vsize v ≤ vsizeO kvs := by
  induction kvs with
  | nil => cases h
  | cons a l ih =>
    rcases List.mem_cons.mp h with h1 | h2
    · obtain ⟨a1, a2⟩ := a
      cases h1
      simp [vsizeO]
    · have := ih h2
      obtain ⟨a1, a2⟩ := a
      simp [vsizeO]
      omega

theorem jsGet_mem {k : String} {v : Value} {kvs : List (String × Value)}
    (h : jsGet k kvs = some v) : (k, v) ∈ kvs := by
  induction kvs with
  | nil => simp [jsGet] at h
  | cons a l ih =>
    obtain ⟨k2, v2⟩ := a
    by_cases hk : k2 = k
    · subst hk
      simp [jsGet] at h
      subst h
      exact List.mem_cons_self _ _
    · simp [jsGet, hk] at h
      exact List.mem_cons_of_mem _ (ih h)

theorem mem_keys_exists_get {k : String} {kvs : List (String × Value)}
    (h : k ∈ objKeys kvs) : ∃ v, jsGet k kvs = some v := by
  induction kvs with
  | nil => simp [objKeys] at h
  | cons a l ih =>
    obtain ⟨k2, v2⟩ := a
    by_cases hk : k2 = k
    · exact ⟨v2, by simp [jsGet, hk]⟩
    · simp [objKeys, hk] at h
      rcases h with h | h
    

      · exact absurd h.symm hk
      · obtain ⟨v, hv⟩ := ih (by simpa [objKeys] using h)
        exact ⟨v, by simp [jsGet, hk, hv]⟩

theorem dedupFirstAux_subset {x : String} :
    ∀ (l : List String) (seen : List String), x ∈ dedupFirstAux seen l → x ∈ l := by
  intro l
  induction l with
  | nil => intro seen h; simp [dedupFirstAux] at h
  | cons k rest ih =>
    intro seen h
    by_cases hk : k ∈ seen
    · simp [dedupFirstAux, hk] at h
      exact List.mem_cons_of_mem _ (ih _ h)
    · simp [dedupFirstAux, hk] at h
      rcases h with rfl | h
      · exact List.mem_cons_self _ _
      · exact List.mem_cons_of_mem _ (ih _ h)

theorem dedupFirstAux_congr :
    ∀ (l seen1 seen2 : List String), (∀ x, x ∈ seen1 ↔ x ∈ seen2) →
      dedupFirstAux seen1 l = dedupFirstAux seen2 l := by
  intro l
  induction l with
  | nil => intro seen1 seen2 _; rfl
  | cons k rest ih =>
    intro seen1 seen2 he
    by_cases hk : k ∈ seen1
    · simp [dedupFirstAux, hk, (he k).mp hk]
      exact ih _ _ he
    · have hk2 : k ∉ seen2 := fun h => hk ((he k).mpr h)
      simp [dedupFirstAux, hk, hk2]
      exact ih _ _ (fun x => by simp [List.mem_cons, he x])

theorem dedupFirstAux_append :
    ∀ (l1 l2 seen : List String),
      dedupFirstAux seen (l1 ++ l2) =
        dedupFirstAux seen l1 ++ dedupFirstAux (l1 ++ seen) l2 := by
  intro l1
  induction l1 with
  | nil => intro l2 seen; simp [dedupFirstAux]
  | cons k rest ih =>
    intro l2 seen
    by_cases hk : k ∈ seen
    · simp only [List.cons_append, dedupFirstAux, if_pos hk, List.append_eq]
      rw [ih]
      congr 1
      refine dedupFirstAux_congr _ _ _ (fun x => ?_)
      simp only [List.mem_append, List.mem_cons]
      constructor
      · intro h; tauto
      · intro h
        rcases h with h | h | h
        · subst h; exact Or.inr hk
        · exact Or.inl h
        · exact Or.inr h
    · simp only [List.cons_append, dedupFirstAux, if_neg hk, List.append_eq]
      rw [ih]
      congr 2
      refine dedupFirstAux_congr _ _ _ (fun x => ?_)
      simp only [List.mem_append, List.mem_cons]
      tauto

theorem dedupFirstAux_eq_filter {l : List String} (h : l.Nodup) :
    ∀ seen, dedupFirstAux seen l = l.filter (fun x => decide (x ∉ seen)) := by
  induction l with
  | nil => intro seen; rfl
  | cons k rest ih =>
    intro seen
    obtain ⟨hk, hrest⟩ := List.nodup_cons.mp h
    by_cases hks : k ∈ seen
    · simp [dedupFirstAux, hks, List.filter_cons, ih hrest]
    · simp only [dedupFirstAux, if_neg hks]
      rw [List.filter_cons_of_pos (by simp [hks]), ih hrest (k :: seen)]
      congr 1
      apply List.filter_congr
      intro x hx
      have hxk : x ≠ k := fun hxk => hk (hxk ▸ hx)
      simp [List.mem_cons, hxk]

theorem dedupFirst_append_nodup {l1 l2 : List String} (h1 : l1.Nodup) (h2 : l2.Nodup) :
    dedupFirst (l1 ++ l2) = l1 ++ l2.filter (fun x => decide (x ∉ l1)) := by
  unfold dedupFirst
  rw [dedupFirstAux_append, List.append_nil]
  congr 1
  · rw [dedupFirstAux_eq_filter h1]
    simp
  · exact dedupFirstAux_eq_filter h2 l1

theorem diffCompareF_self :
    ∀ (fuel : Nat) (v : Value) (path : String), vsize v ≤ fuel →
      diffCompareF fuel v v path = [] := by
  intro fuel
  induction fuel with
  | zero => intro v path _; rfl
  | succ n ih =>
    intro v path h
    cases v with
    | null => rfl
    | undefined => simp [diffCompareF, jsTypeof, strictEqPrim]
    | bool b => simp [diffCompareF, jsTypeof, strictEqPrim]
    | num q => simp [diffCompareF, jsTypeof, strictEqPrim]
    | str s => simp [diffCompareF, jsTypeof, strictEqPrim]
    | arr xs =>
      have hsz : vsizeL xs ≤ n := by
        have : vsize (Value.arr xs) = 1 + vsizeL xs := by simp [vsize]
        omega
      simp only [diffCompareF, jsTypeof, isArrayV, ne_eq, not_true_eq_false, if_false,
        String.reduceEq, not_false_eq_true, if_true, max_self, ite_self]
      rw [List.flatten_eq_nil_iff]
      intro x hx
      obtain ⟨i, hi, rfl⟩ := List.mem_map.mp hx
      have hilt : i < xs.length := List.mem_range.mp hi
      rw [if_neg (by omega), if_neg (by omega)]
      apply ih
      rw [List.getD_eq_getElem xs Value.null hilt]
      have := vsizeL_le_of_mem (List.getElem_mem hilt)
      omega
    | obj kvs =>
      have hsz : vsizeO kvs ≤ n := by
        have : vsize (Value.obj kvs) = 1 + vsizeO kvs := by simp [vsize]
        omega
      simp only [diffCompareF, jsTypeof, isArrayV, ne_eq, not_true_eq_false, if_false,
        String.reduceEq, not_false_eq_true, if_true, ite_self]
      rw [List.flatten_eq_nil_iff]
      intro x hx
      obtain ⟨key, hkey, rfl⟩ := List.mem_map.mp hx
      have hkmem : key ∈ objKeys kvs := by
        have := dedupFirstAux_subset _ _ hkey
        rcases List.mem_append.mp this with h2 | h2 <;> exact h2
      obtain ⟨v, hv⟩ := mem_keys_exists_get hkmem
      rw [hv]
      apply ih
      have := vsizeO_le_of_mem (jsGet_mem hv)
      omega

/-- C8: `diffJSON(v, v)` is the empty change list for every value. -/
theorem diffJSON_self (v : Value) : diffJSON v v = [] :=
  diffCompareF_self (vsize v) v "" (le_refl _)

theorem bracketTokens_no_recursive (bracket : List Char) :
    Token.recursive ∉ bracketTokens bracket := by
  unfold bracketTokens
  split_ifs <;> simp

theorem tokenizeLoopF_no_recursive :
    ∀ (fuel : Nat) (l : List Char), Token.recursive ∉ tokenizeLoopF fuel l := by
  intro fuel
  induction fuel with
  | zero => intro l; simp [tokenizeLoopF]
  | succ n ih =>
    intro l
    cases l with
    | nil => simp [tokenizeLoopF]
    | cons c rest =>
      simp only [tokenizeLoopF]
      split_ifs with h1 h2 h3 h4
      · exact ih rest
      · rw [List.mem_append]
        rintro (h | h)
        · exact bracketTokens_no_recursive _ h
        · exact ih _ h
      · exact absurd h3.1 h1
      · simp only [List.mem_cons]
        rintro (h | h)
        · cases h
        · exact ih rest h
      · simp only [List.mem_cons]
        rintro (h | h)
        · cases h
        · exact ih _ h

/-- C4: `tokenize` never emits a `Recursive` token, for any expression:
the double-dot branch sits after the single-dot skip, so it can never
fire. -/
theorem tokenize_no_recursive (path : String) :
    Token.recursive ∉ tokenize path := by
  unfold tokenize
  split_ifs with h h2
  · simp
  · exact tokenizeLoopF_no_recursive _ _
  · exact tokenizeLoopF_no_recursive _ _

/-- C2: `tokenize` is total and gives the empty token list on "" and
"$" (select the root); consequently `query(v, "$")` succeeds with the
single match `v` carrying the seed root path `['$']` (the path with no
segments after the root marker, i.e. the empty abstract path), and
`query(v, "")` is the identical outcome. -/
theorem queryJSONPath_rootIdentity :
    tokenize "" = [] ∧ tokenize "$" = [] ∧
      (∀ v : Value,
        queryJSONPath v "$" =
          { success := true, error := none, results := [v],
            paths := [[PathSeg.str "$"]], count := 1 }) ∧
      (∀ v : Value, queryJSONPath v "" = queryJSONPath v "$") :=
  ⟨rfl, rfl, fun _ => rfl, fun _ => rfl⟩

theorem foldl_add_map {α : Type} (f : α → Nat) :
    ∀ (l : List α) (n : Nat), l.foldl (fun s x => s + f x) n = n + (l.map f).sum := by
  intro l
  induction l with
  | nil => intro n; simp
  | cons a t ih =>
    intro n
    simp only [List.foldl_cons, List.map_cons, List.sum_cons, ih]
    omega

theorem countNodesF_eq_spec :
    ∀ (fuel : Nat) (v : Value), countNodesF fuel v = nodeCountSpecF fuel v := by
  intro fuel
  induction fuel with
  | zero => intro v; rfl
  | succ n ih =>
    intro v
    cases v with
    | arr xs =>
      simp only [countNodesF, nodeCountSpecF]
      rw [foldl_add_map (countNodesF n), funext ih]
    | obj kvs =>
      simp only [countNodesF, nodeCountSpecF]
      rw [foldl_add_map (α := String × Value) (fun kv => countNodesF n kv.2), funext ih]
    | null => rfl
    | undefined => rfl
    | bool b => rfl
    | num q => rfl
    | str s => rfl

theorem countNodes_eq_nodeCountSpec (v : Value) : countNodes v = nodeCountSpec v :=
  countNodesF_eq_spec _ v

/-- C5: `calculateSimilarity` equals the spec formula (half-up rounding
of the clamped `((total − 2·changes)/total)·100`, with the spec's
`nodeCount` and `total = 0 → 100`); its result is an integer in
`[0, 100]`; and it is 100 on identical inputs. -/
theorem calculateSimilarity_spec :
    (∀ v1 v2 : Value, calculateSimilarity v1 v2 = similaritySpec v1 v2) ∧
    (∀ v1 v2 : Value,
      0 ≤ calculateSimilarity v1 v2 ∧ calculateSimilarity v1 v2 ≤ 100) ∧
    (∀ v : Value, calculateSimilarity v v = 100) := by
  refine ⟨?_, ?_, ?_⟩
  · intro v1 v2
    simp [calculateSimilarity, similaritySpec, countNodes_eq_nodeCountSpec]
  · intro v1 v2
    unfold calculateSimilarity
    by_cases h : countNodes v1 + countNodes v2 = 0
    · simp [h]
    · simp only [if_neg h]
      set x : ℚ :=
        ((↑(countNodes v1 + countNodes v2) : ℚ) - ↑(diffJSON v1 v2).length * 2) /
          ↑(countNodes v1 + countNodes v2) * 100 with hx
      have h0 : (0 : ℚ) ≤ max 0 (min 100 x) := le_max_left _ _
      have h100 : max 0 (min 100 x) ≤ 100 :=
        max_le (by norm_num) (min_le_left _ _)
      constructor
      · exact Int.le_floor.mpr (by push_cast; linarith)
      · have hlt : ⌊max 0 (min 100 x) + 1 / 2⌋ < 101 :=
          Int.floor_lt.mpr (by push_cast; linarith)
        unfold jsRound
        omega
  · intro v
    have hd : diffJSON v v = [] := diffCompareF_self (vsize v) v "" (le_refl _)
    unfold calculateSimilarity
    by_cases h : countNodes v + countNodes v = 0
    · simp [h]
    · have ht : ((countNodes v + countNodes v : Nat) : ℚ) ≠ 0 := Nat.cast_ne_zero.mpr h
      simp only [hd, List.length_nil, if_neg h, Nat.cast_zero, zero_mul, sub_zero,
        div_self ht, one_mul, min_self]
      rw [max_eq_right (by norm_num : (0 : ℚ) ≤ 100)]
      unfold jsRound
      exact Int.floor_eq_iff.mpr ⟨by norm_num, by norm_num⟩

/-- Scenario A left object: `{"a":1,"b":2}`. -/
def exL : Value := .obj [("a", .num 1), ("b", .num 2)]

/-- Scenario A right object: `{"a":1,"b":3,"c":4}`. -/
def exR : Value := .obj [("a", .num 1), ("b", .num 3), ("c", .num 4)]

/-- C6: comparing two objects walks the union of keys — the left
object's keys in its insertion order, then the keys only in the right
in its order — emitting Added when the key is missing on the left,
Removed when missing on the right, and recursing at `path.key` (bare
key at the root); on scenario A this yields exactly
`[Changed "b" 2→3, Added "c" 4]`. -/
theorem diffJSON_object_union_walk :
    (∀ (fuel : Nat) (kvs1 kvs2 : List (String × Value)) (path : String),
        (objKeys kvs1).Nodup → (objKeys kvs2).Nodup →
        diffCompareF (fuel + 1) (.obj kvs1) (.obj kvs2) path =
          ((objKeys kvs1 ++
              (objKeys kvs2).filter (fun k => decide (k ∉ objKeys kvs1))).map
              (fun key =>
                let newPath := if path = "" then key else path ++ "." ++ key
                match jsGet key kvs1 with
                | none => [mkAdded newPath ((jsGet key kvs2).getD .undefined)]
                | some v1 =>
                  match jsGet key kvs2 with
                  | none => [mkRemoved newPath v1]
                  | some v2 => diffCompareF fuel v1 v2 newPath)).flatten) ∧
      diffJSON exL exR = [mkChanged "b" (.num 2) (.num 3), mkAdded "c" (.num 4)] := by
  constructor
  · intro fuel kvs1 kvs2 path h1 h2
    simp only [diffCompareF, jsTypeof, isArrayV, ne_eq, not_true_eq_false, if_false,
      String.reduceEq, not_false_eq_true, if_true, ite_self]
    rw [dedupFirst_append_nodup h1 h2]
  · rfl

theorem diffJSON_object_union_walk_witness :
    diffCompareF 1 (.obj [("a", Value.null)]) (.obj ([] : List (String × Value))) "" =
      [mkRemoved "a" Value.null] :=
  (diffJSON_object_union_walk.1 0 [("a", Value.null)] [] ""
    (by decide) (by decide)).trans rfl

/-- C10: object diffing detects no difference whenever the two objects
have the same key set and equal values at every key, whatever either
object's insertion order; so key order can only affect emission order,
never whether a record is emitted. -/
theorem diffJSON_key_order_insensitive (kvs1 kvs2 : List (String × Value))
    (h12 : ∀ k ∈ objKeys kvs1, k ∈ objKeys kvs2)
    (h21 : ∀ k ∈ objKeys kvs2, k ∈ objKeys kvs1)
    (hv : ∀ k ∈ objKeys kvs1, jsGet k kvs1 = jsGet k kvs2) :
    diffJSON (.obj kvs1) (.obj kvs2) = [] := by
  unfold diffJSON
  have hs : vsize (Value.obj kvs1) = vsizeO kvs1 + 1 := by
    simp [vsize, Nat.add_comm]
  rw [hs]
  simp only [diffCompareF, jsTypeof, isArrayV, ne_eq, not_true_eq_false, if_false,
    String.reduceEq, not_false_eq_true, if_true, ite_self]
  rw [List.flatten_eq_nil_iff]
  intro x hx
  obtain ⟨key, hkey, rfl⟩ := List.mem_map.mp hx
  have hk1 : key ∈ objKeys kvs1 := by
    have hsub := dedupFirstAux_subset _ _ hkey
    rcases List.mem_append.mp hsub with h | h
    · exact h
    · exact h21 _ h
  obtain ⟨v, hv1⟩ := mem_keys_exists_get hk1
  have hv2 : jsGet key kvs2 = some v := (hv _ hk1) ▸ hv1
  rw [hv1, hv2]
  exact diffCompareF_self _ _ _ (by
    have := vsizeO_le_of_mem (jsGet_mem hv1)
    omega)

theorem diffJSON_key_order_insensitive_witness :
    diffJSON (.obj [("a", Value.num 1), ("b", Value.str "x")])
      (.obj [("b", Value.str "x"), ("a", Value.num 1)]) = [] := by
  apply diffJSON_key_order_insensitive
  · decide
  · decide
  · intro k hk
    simp only [objKeys, List.map_cons, List.map_nil, List.mem_cons,
      List.not_mem_nil, or_false] at hk
    rcases hk with rfl | rfl <;> rfl

/-- Scenario B root: `{"items":[{"id":1},{"id":2},{"id":3}]}`. -/
def rootB : Value :=
  .obj [("items", .arr [.obj [("id", .num 1)], .obj [("id", .num 2)], .obj [("id", .num 3)]])]

/-- C1 (evaluating the code at the claimed input): the query
`$.items[?(@.id>1)]` on scenario B succeeds with zero results — not the
claimed two matches — because the filter regex captures the trailing
`)` into the literal (`valueStr = "1)"`), which coerces to NaN, so
`2 > "1)"` and `3 > "1)"` are both false; moreover the result carries
no per-match paths. -/
theorem queryJSONPath_scenarioB_empty :
    queryJSONPath rootB "$.items[?(@.id>1)]" =
      { success := true, error := none, results := [], paths := [], count := 0 } ∧
    regexSearch "(@.id>1)".data = some ("id", ">", "1)") ∧
    evaluateFilter (.obj [("id", .num 2)]) "(@.id>1)" = .ok false :=
  ⟨rfl, rfl, rfl⟩

/-- C3 counterexample: a filter expression that does not match the
single-comparison grammar does NOT surface as a failure result — the
query succeeds with zero matches (`evaluateFilter` returns false
instead of throwing). -/
theorem malformed_filter_is_not_an_error :
    queryJSONPath (.arr [.num 1]) "$[?(foo)]" =
      { success := true, error := none, results := [], paths := [], count := 0 } := rfl

theorem filterEmit_ok_false {expr : String} (h : regexSearch expr.data = none) :
    ∀ (pairs : List (Int × Value)) (cp : Option JsPath),
      filterEmit expr cp pairs = .ok ([], []) := by
  intro pairs
  induction pairs with
  | nil => intro cp; rfl
  | cons p rest ih =>
    intro cp
    obtain ⟨i, x⟩ := p
    have he : evaluateFilter x expr = .ok false := by simp [evaluateFilter, h]
    simp only [filterEmit, he]
    exact ih cp

/-- C3 (amended): a filter expression that does not match the
comparison grammar evaluates to false for every element, so the query
succeeds with zero matches exactly like the other no-match conditions
(missing key, out-of-range index, non-array slice or filter target);
no `QuerySyntaxError` exists — the only failures `queryJSONPath`
surfaces are thrown runtime errors. -/
theorem no_match_conditions_yield_empty :
    (∀ (item : Value) (expr : String), regexSearch expr.data = none →
        evaluateFilter item expr = .ok false) ∧
    (∀ (xs : List Value) (expr path : String),
        tokenize path = [Token.filter expr] → regexSearch expr.data = none →
        queryJSONPath (.arr xs) path =
          { success := true, error := none, results := [], paths := [], count := 0 }) ∧
    (∀ (kvs : List (String × Value)) (k : String) (cp : Option JsPath),
        jsGet k kvs = none → applyToken (.key k) (.obj kvs) cp = .ok ([], [])) ∧
    (∀ (xs : List Value) (i : Nat) (cp : Option JsPath),
        xs.length ≤ i → applyToken (.index i) (.arr xs) cp = .ok ([], [])) ∧
    (∀ (v : Value) (s e : Option (Option Int)) (cp : Option JsPath),
        isArrayV v = false → applyToken (.slice s e) v cp = .ok ([], [])) ∧
    (∀ (v : Value) (expr : String) (cp : Option JsPath),
        isArrayV v = false → applyToken (.filter expr) v cp = .ok ([], [])) := by
  refine ⟨?_, ?_, ?_, ?_, ?_, ?_⟩
  · intro item expr h
    simp [evaluateFilter, h]
  · intro xs expr path ht hre
    unfold queryJSONPath
    rw [ht]
    have hf : applyToken (Token.filter expr) (Value.arr xs) (some [PathSeg.str "$"]) =
        .ok ([], []) := by
      simp [applyToken, filterEmit_ok_false hre]
    simp [runTokens, applyAll, hf, jsUpdatePaths]
    rfl
  · intro kvs k cp h
    simp [applyToken, h]
  · intro xs i cp h
    simp [applyToken, Nat.not_lt.mpr h]
  · intro v s e cp h
    cases v <;> simp_all [applyToken, isArrayV]
  · intro v expr cp h
    cases v <;> simp_all [applyToken, isArrayV]

theorem no_match_conditions_yield_empty_witness :
    evaluateFilter (.num 1) "(foo)" = .ok false ∧
    queryJSONPath (.arr [.num 2]) "$[?(bar)]" =
      { success := true, error := none, results := [], paths := [], count := 0 } ∧
    applyToken (.key "missing") (.obj [("a", Value.null)]) (some [PathSeg.str "$"]) =
      .ok ([], []) ∧
    applyToken (.index 5) (.arr [Value.null]) (some [PathSeg.str "$"]) = .ok ([], []) ∧
    applyToken (.slice none none) (.obj []) (some [PathSeg.str "$"]) = .ok ([], []) ∧
    applyToken (.filter "(@.a>1)") Value.null (some [PathSeg.str "$"]) = .ok ([], []) :=
  ⟨no_match_conditions_yield_empty.1 _ _ rfl,
   no_match_conditions_yield_empty.2.1 _ _ _ rfl rfl,
   no_match_conditions_yield_empty.2.2.1 _ _ _ rfl,
   no_match_conditions_yield_empty.2.2.2.1 _ _ _ (by norm_num),
   no_match_conditions_yield_empty.2.2.2.2.1 _ _ _ _ rfl,
   no_match_conditions_yield_empty.2.2.2.2.2 _ _ _ rfl⟩

theorem evaluateFilter_null_error {expr : String} {r : String × String × String}
    (h : regexSearch expr.data = some r) :
    ∃ msg, evaluateFilter Value.null expr = .error msg := by
  obtain ⟨property, op, vs⟩ := r
  refine ⟨"Cannot read properties of null (reading " ++ property ++ ")", ?_⟩
  simp only [evaluateFilter, h]
  rfl

theorem filterEmit_error {expr : String} {r : String × String × String}
    (h : regexSearch expr.data = some r) :
    ∀ (pairs : List (Int × Value)) (cp : Option JsPath),
      (∃ i, (i, Value.null) ∈ pairs) →
      ∃ msg, filterEmit expr cp pairs = .error msg := by
  intro pairs
  induction pairs with
  | nil =>
    rintro cp ⟨i, hi⟩
    simp at hi
  | cons p rest ih =>
    rintro cp ⟨i, hi⟩
    obtain ⟨j, x⟩ := p
    cases hx : evaluateFilter x expr with
    | error m =>
      exact ⟨m, by simp only [filterEmit, hx]; rfl⟩
    | ok b =>
      have hxn : x ≠ Value.null := by
        intro hxe
        subst hxe
        obtain ⟨m, hm⟩ := evaluateFilter_null_error h
        rw [hm] at hx
        cases hx
      have hrest : (i, Value.null) ∈ rest := by
        rcases List.mem_cons.mp hi with he | he
        · rw [Prod.ext_iff] at he
          exact absurd he.2.symm hxn
        · exact he
      obtain ⟨m2, hm2⟩ := ih cp ⟨i, hrest⟩
      cases cp with
      | none =>
        cases b with
        | false => exact ⟨m2, by simp only [filterEmit, hx]; exact hm2⟩
        | true =>
          exact ⟨"currentPath is not iterable", by simp only [filterEmit, hx]; rfl⟩
      | some pp =>
        cases b with
        | false => exact ⟨m2, by simp only [filterEmit, hx]; exact hm2⟩
        | true =>
          refine ⟨m2, ?_⟩
          simp only [filterEmit, hx]
          show (do
            let p ← pushPair (some pp) (PathSeg.num j)
            let st ← filterEmit expr (some pp) rest
            Except.ok (x :: st.1, p :: st.2)) = Except.error m2
          rw [hm2]
          rfl

/-- C9: a grammatical filter applied to an array containing a null
element makes the whole query fail (success false, an error message,
no results) because the evaluator reads the compared property off the
null element, which throws. -/
theorem null_element_filter_fails (xs : List Value) (expr path : String)
    (htok : tokenize path = [Token.filter expr])
    (hre : (regexSearch expr.data).isSome = true)
    (hnull : Value.null ∈ xs) :
    (queryJSONPath (.arr xs) path).success = false ∧
    (queryJSONPath (.arr xs) path).error.isSome = true ∧
    (queryJSONPath (.arr xs) path).results = [] ∧
    (queryJSONPath (.arr xs) path).count = 0 := by
  obtain ⟨r, hr⟩ := Option.isSome_iff_exists.mp hre
  obtain ⟨i, hlt, heq⟩ := List.mem_iff_getElem.mp hnull
  have hmem : ((i : Int), Value.null) ∈ xs.enum.map (fun ix => ((ix.1 : Int), ix.2)) := by
    apply List.mem_map.mpr
    refine ⟨(i, Value.null), ?_, rfl⟩
    apply List.mk_mem_enum_iff_getElem?.mpr
    rw [List.getElem?_eq_getElem hlt, heq]
  obtain ⟨msg, hfe⟩ :=
    filterEmit_error hr (xs.enum.map (fun ix => ((ix.1 : Int), ix.2)))
      (some [PathSeg.str "$"]) ⟨(i : Int), hmem⟩
  have happ : applyToken (Token.filter expr) (Value.arr xs) (some [PathSeg.str "$"]) =
      .error msg := hfe
  unfold queryJSONPath
  rw [htok]
  have hrun : runTokens [Token.filter expr] [Value.arr xs] [[PathSeg.str "$"]] =
      .error msg := by
    simp only [runTokens, applyAll, List.head?]
    rw [happ]
    rfl
  rw [hrun]
  exact ⟨rfl, rfl, rfl, rfl⟩

theorem null_element_filter_fails_witness :
    (queryJSONPath (.arr [Value.null]) "$[?(@.a>1)]").success = false ∧
    (queryJSONPath (.arr [Value.null]) "$[?(@.a>1)]").error.isSome = true ∧
    (queryJSONPath (.arr [Value.null]) "$[?(@.a>1)]").results = [] ∧
    (queryJSONPath (.arr [Value.null]) "$[?(@.a>1)]").count = 0 :=
  null_element_filter_fails [Value.null] "(@.a>1)" "$[?(@.a>1)]" rfl rfl
    (List.mem_singleton.mpr rfl)

/-- Scenario D value: `{"a":{"b":1}}`. -/
def exD : Value := .obj [("a", .obj [("b", .num 1)])]

/-- C7 counterexample: the LineMap that `stringifyWithPathMap` builds
from scenario D records exactly `a ↦ 2` and `a.b ↦ 3`; the root (empty
path) is NOT recorded, contradicting the claim that it always is. -/
theorem root_path_never_recorded :
    (stringifyWithPathMap exD 2).pathToLine = [("a", 2), ("a.b", 3)] ∧
    mapGet "" (stringifyWithPathMap exD 2).pathToLine = none :=
  ⟨rfl, rfl⟩

theorem stripIndexSuffix_shorter {l l2 : List Char}
    (h : stripIndexSuffix l = some l2) : l2.length < l.length := by
  unfold stripIndexSuffix at h
  split at h
  next r2 heq =>
    dsimp only at h
    split at h
    next => simp at h
    next hds =>
      split at h
      next r3 hdrop =>
        have h1 : l.length = r2.length + 1 := by
          have h2 := congrArg List.length heq
          simpa using h2
        have h2 : r2.length - (r2.takeWhile Char.isDigit).length = r3.length + 1 := by
          have h3 := congrArg List.length hdrop
          simpa using h3
        have h4 : l2 = r3.reverse := by
          simpa using h.symm
        subst h4
        simp only [List.length_reverse]
        omega
      next => simp at h
  next => simp at h

theorem getParentPath_shorter {p : String} (h : p ≠ "") :
    (getParentPath p).length < p.length := by
  have hd : p.data ≠ [] := by
    intro he
    apply h
    obtain ⟨l⟩ := p
    simp only [String.data] at he
    subst he
    rfl
  have h0 : 0 < p.data.length := List.length_pos.mpr hd
  unfold getParentPath
  rw [if_neg h]
  cases hs : stripIndexSuffix p.data with
  | some l2 =>
    exact stripIndexSuffix_shorter hs
  | none =>
    have h1 : (p.data.reverse.dropWhile (fun c => ¬ (c = '.'))).length ≤ p.data.length := by
      have h2 := length_dropWhile_le' (fun c => (¬ (c = '.') : Bool)) p.data.reverse
      simpa using h2
    show ((p.data.reverse.dropWhile (fun c => ¬ (c = '.'))).drop 1).reverse.length <
      p.data.length
    rw [List.length_reverse, List.length_drop]
    omega

theorem resolveLoopF_fuel_irrel (m : List (String × Nat)) :
    ∀ (f1 f2 : Nat) (cur : String), cur.length ≤ f1 → cur.length ≤ f2 →
      resolveLoopF m f1 cur = resolveLoopF m f2 cur := by
  intro f1
  induction f1 with
  | zero =>
    intro f2 cur h1 _
    have hcur : cur = "" := by
      obtain ⟨l⟩ := cur
      cases l with
      | nil => rfl
      | cons c t => exact absurd h1 (Nat.not_succ_le_zero _)
    subst hcur
    cases f2 <;> simp [resolveLoopF]
  | succ n ih =>
    intro f2 cur h1 h2
    by_cases hc : cur = ""
    · subst hc
      cases f2 <;> simp [resolveLoopF]
    · have hpos : 0 < cur.length := by
        obtain ⟨l⟩ := cur
        cases l with
        | nil => exact absurd rfl hc
        | cons c t => simp [String.length]
      obtain ⟨k, rfl⟩ : ∃ k, f2 = k + 1 := by
        cases f2 with
        | zero => omega
        | succ k => exact ⟨k, rfl⟩
      simp only [resolveLoopF, if_neg hc]
      cases hm : mapGet (getParentPath cur) m with
      | some lineNo => rfl
      | none =>
        have hsh := getParentPath_shorter hc
        exact ih _ _ (by omega) (by omega)

/-- C7 (amended): `resolvePathLine` returns the recorded line of a
non-empty recorded path; the empty path resolves to 1 directly (the
root is never stored in the LineMap — the loop and the final fallback
return 1 instead); an unrecorded path resolves exactly as its
`getParentPath` ancestor does, so resolution walks up to the nearest
recorded ancestor, terminating with line 1 in the worst case; on
scenario D the map records `a ↦ 2`, `a.b ↦ 3` and the never-recorded
`a.b.c` resolves to the line of `a.b`. -/
theorem resolvePathLine_spec :
    (∀ (path : String) (m : List (String × Nat)) (lineNo : Nat),
        path ≠ "" → mapGet path m = some lineNo → resolvePathLine path m = lineNo) ∧
    (∀ m : List (String × Nat), resolvePathLine "" m = 1) ∧
    (∀ (path : String) (m : List (String × Nat)),
        path ≠ "" → mapGet path m = none → mapGet "" m = none →
        resolvePathLine path m = resolvePathLine (getParentPath path) m) ∧
    (∀ path : String, resolvePathLine path [] = 1) ∧
    ((stringifyWithPathMap exD 2).pathToLine = [("a", 2), ("a.b", 3)] ∧
      resolvePathLine "a.b.c" (stringifyWithPathMap exD 2).pathToLine = 3) := by
  refine ⟨?_, ?_, ?_, ?_, rfl, rfl⟩
  · intro path m lineNo h hm
    simp [resolvePathLine, h, hm]
  · intro m
    rfl
  · intro path m hne hnone hroot
    have hpos : 0 < path.length := by
      obtain ⟨l⟩ := path
      cases l with
      | nil => exact absurd rfl hne
      | cons c t => exact Nat.succ_pos _
    simp only [resolvePathLine, if_neg hne, hnone]
    obtain ⟨k, hk⟩ : ∃ k, path.length = k + 1 := ⟨path.length - 1, by omega⟩
    rw [hk]
    simp only [resolveLoopF, if_neg hne]
    cases hm : mapGet (getParentPath path) m with
    | some lineNo =>
      have hpne : getParentPath path ≠ "" := by
        intro he
        rw [he, hroot] at hm
        cases hm
      simp [resolvePathLine, hpne, hm]
    | none =>
      by_cases hpe : getParentPath path = ""
      · rw [hpe]
        cases k <;> simp [resolveLoopF, resolvePathLine]
      · simp only [resolvePathLine, if_neg hpe, hm]
        have hsh := getParentPath_shorter hne
        exact resolveLoopF_fuel_irrel m _ _ _ (by omega) (le_refl _)
  · intro path
    have hgen : ∀ (f : Nat) (cur : String), resolveLoopF [] f cur = 1 := by
      intro f
      induction f with
      | zero => intro cur; rfl
      | succ n ih =>
        intro cur
        by_cases hc : cur = ""
        · simp [resolveLoopF, hc]
        · simp [resolveLoopF, hc, mapGet, ih]
    by_cases h : path = ""
    · subst h; rfl
    · simp [resolvePathLine, h, mapGet, hgen]

theorem resolvePathLine_spec_witness :
    resolvePathLine "a.b" (stringifyWithPathMap exD 2).pathToLine = 3 ∧
    resolvePathLine "a.b.c" (stringifyWithPathMap exD 2).pathToLine =
      resolvePathLine (getParentPath "a.b.c") (stringifyWithPathMap exD 2).pathToLine ∧
    resolvePathLine "nowhere.x" [] = 1 :=
  ⟨resolvePathLine_spec.1 "a.b" _ 3 (by decide) rfl,
   resolvePathLine_spec.2.2.1 "a.b.c" _ (by decide) rfl rfl,
   resolvePathLine_spec.2.2.2.1 "nowhere.x"⟩
